import Mathlib

/-!
Verification of the selective-commit core of cargo-version-info.

The definitions below are a shallow embedding of the diff-classification,
tree-rebuild, commit-payload, and signing-dispatch code in
`src/commands/bump/{diff.rs, commit.rs, signing.rs}`.  Pure Rust functions
become Lean functions over `List Char` / `String` / `Nat`; the gix object
store and the filesystem, which are external collaborators, are modelled as
explicit state passing (`RepoState`) and explicit parameters holding what
the external reads would have returned.
-/

/-- Substring containment, modelling Rust `str::contains(pat)`:
true when `pat` occurs contiguously inside the second list. -/
def containsAux (pat : List Char) : List Char → Bool
  | [] => pat.isEmpty
  | c :: rest => pat.isPrefixOf (c :: rest) || containsAux pat rest

/-- String-level wrapper for `containsAux` (Rust `hay.contains(pat)`). -/
def strContains (hay pat : String) : Bool :=
  containsAux pat.data hay.data

/-- Split a character list into lines, each keeping its trailing newline,
modelling `similar::TextDiff::from_lines` line values (`change.value()`
includes the line terminator).  A final fragment without a newline is kept. -/
def splitLinesAux (acc : List Char) : List Char → List (List Char)
  | [] => if acc.isEmpty then [] else [acc.reverse]
  | c :: rest =>
    if c = '\n' then (acc.reverse ++ ['\n']) :: splitLinesAux [] rest
    else splitLinesAux (c :: acc) rest

/-- Lines (with terminators) of a string. -/
def splitLines (s : String) : List (List Char) :=
  splitLinesAux [] s.data

/-- Concatenation of a list of lists (used to re-join lines, modelling
`result.join("")`). -/
def joinAll {α : Type} : List (List α) → List α
  | [] => []
  | l :: ls => l ++ joinAll ls

/-- Round trip: joining the split lines gives back the original characters. -/
theorem joinAll_splitLinesAux (l acc : List Char) :
    joinAll (splitLinesAux acc l) = acc.reverse ++ l := by
  induction l generalizing acc with
  | nil =>
    by_cases h : acc.isEmpty
    · simp_all [splitLinesAux, joinAll, List.isEmpty_iff]
    · simp_all [splitLinesAux, joinAll]
  | cons c rest ih =>
    by_cases h : c = '\n'
    · simp [splitLinesAux, h, joinAll, ih]
    · simp [splitLinesAux, h, ih]

/-- Round trip at the string level. -/
theorem joinAll_splitLines (s : String) : joinAll (splitLines s) = s.data := by
  simpa using joinAll_splitLinesAux s.data []

/-- One element of a line diff, modelling `similar::ChangeTag` together with
the change value: a line equal in both texts, a line deleted from the base
text, or a line inserted by the working text. -/
inductive Change where
  | equal (line : List Char)
  | delete (line : List Char)
  | insert (line : List Char)
deriving DecidableEq

/-- Number of non-equal changes of a diff script (used to pick the smaller
of two candidate diffs, modelling the minimal-edit behaviour of the external
`similar` crate). -/
def diffCost : List Change → Nat
  | [] => 0
  | Change.equal _ :: r => diffCost r
  | Change.delete _ :: r => 1 + diffCost r
  | Change.insert _ :: r => 1 + diffCost r

/-- Fuel-driven line diff.  Modelled from the spec: the source delegates the
line-level diff to the external `similar` crate ("computes a line-level
diff"); this executable model returns a minimal edit script whose equal,
delete and insert entries project back onto the two input texts (see
`baseOfChanges_lineDiffAux` and `workingOfChanges_lineDiffAux`).  The fuel
only drives structural recursion; with fuel `xs.length + ys.length` the
fallback branch is never reached, and the projection properties hold for
every fuel value. -/
def lineDiffAux (fuel : Nat) (xs ys : List (List Char)) : List Change :=
  match fuel with
  | 0 => xs.map Change.delete ++ ys.map Change.insert
  | fuel + 1 =>
    match xs, ys with
    | [], ys2 => ys2.map Change.insert
    | x :: xs2, [] => (x :: xs2).map Change.delete
    | x :: xs2, y :: ys2 =>
      if x = y then Change.equal x :: lineDiffAux fuel xs2 ys2
      else
        let d1 := lineDiffAux fuel xs2 (y :: ys2)
        let d2 := lineDiffAux fuel (x :: xs2) ys2
        if diffCost d1 ≤ diffCost d2 then Change.delete x :: d1
        else Change.insert y :: d2

/-- Line diff of two texts (lists of lines). -/
def lineDiff (xs ys : List (List Char)) : List Change :=
  lineDiffAux (xs.length + ys.length) xs ys

/-- Lines of the base text as a diff script presents them: equal and deleted
lines, in order. -/
def baseOfChanges : List Change → List (List Char)
  | [] => []
  | Change.equal l :: r => l :: baseOfChanges r
  | Change.delete l :: r => l :: baseOfChanges r
  | Change.insert _ :: r => baseOfChanges r

/-- Lines of the working text as a diff script presents them: equal and
inserted lines, in order. -/
def workingOfChanges : List Change → List (List Char)
  | [] => []
  | Change.equal l :: r => l :: workingOfChanges r
  | Change.delete _ :: r => workingOfChanges r
  | Change.insert l :: r => l :: workingOfChanges r

theorem baseOfChanges_append (a b : List Change) :
    baseOfChanges (a ++ b) = baseOfChanges a ++ baseOfChanges b := by
  induction a with
  | nil => simp [baseOfChanges]
  | cons c r ih => cases c <;> simp [baseOfChanges, ih]

theorem workingOfChanges_append (a b : List Change) :
    workingOfChanges (a ++ b) = workingOfChanges a ++ workingOfChanges b := by
  induction a with
  | nil => simp [workingOfChanges]
  | cons c r ih => cases c <;> simp [workingOfChanges, ih]

theorem baseOfChanges_map_delete (xs : List (List Char)) :
    baseOfChanges (xs.map Change.delete) = xs := by
  induction xs with
  | nil => simp [baseOfChanges]
  | cons x r ih => simp [baseOfChanges, ih]

theorem baseOfChanges_map_insert (ys : List (List Char)) :
    baseOfChanges (ys.map Change.insert) = [] := by
  induction ys with
  | nil => simp [baseOfChanges]
  | cons y r ih => simp [baseOfChanges, ih]

theorem workingOfChanges_map_insert (ys : List (List Char)) :
    workingOfChanges (ys.map Change.insert) = ys := by
  induction ys with
  | nil => simp [workingOfChanges]
  | cons y r ih => simp [workingOfChanges, ih]

theorem workingOfChanges_map_delete (xs : List (List Char)) :
    workingOfChanges (xs.map Change.delete) = [] := by
  induction xs with
  | nil => simp [workingOfChanges]
  | cons x r ih => simp [workingOfChanges, ih]

/-- The diff really diffs the base text: its equal and deleted lines are
exactly the base lines, whatever the fuel. -/
theorem baseOfChanges_lineDiffAux (fuel : Nat) :
    ∀ xs ys, baseOfChanges (lineDiffAux fuel xs ys) = xs := by
  induction fuel with
  | zero =>
    intro xs ys
    simp [lineDiffAux, baseOfChanges_append, baseOfChanges_map_delete,
      baseOfChanges_map_insert]
  | succ fuel ih =>
    intro xs ys
    match xs, ys with
    | [], ys2 => simp [lineDiffAux, baseOfChanges_map_insert]
    | x :: xs2, [] =>
      simpa [lineDiffAux] using baseOfChanges_map_delete (x :: xs2)
    | x :: xs2, y :: ys2 =>
      by_cases hxy : x = y
      · simp [lineDiffAux, hxy, baseOfChanges, ih]
      · simp only [lineDiffAux, hxy, if_false]
        by_cases hc : diffCost (lineDiffAux fuel xs2 (y :: ys2)) ≤
            diffCost (lineDiffAux fuel (x :: xs2) ys2)
        · simp [hc, baseOfChanges, ih]
        · simp [hc, baseOfChanges, ih]

/-- The diff really diffs the working text: its equal and inserted lines are
exactly the working lines, whatever the fuel. -/
theorem workingOfChanges_lineDiffAux (fuel : Nat) :
    ∀ xs ys, workingOfChanges (lineDiffAux fuel xs ys) = ys := by
  induction fuel with
  | zero =>
    intro xs ys
    simp [lineDiffAux, workingOfChanges_append, workingOfChanges_map_delete,
      workingOfChanges_map_insert]
  | succ fuel ih =>
    intro xs ys
    match xs, ys with
    | [], ys2 => simp [lineDiffAux, workingOfChanges_map_insert]
    | x :: xs2, [] =>
      simpa [lineDiffAux] using workingOfChanges_map_delete (x :: xs2)
    | x :: xs2, y :: ys2 =>
      by_cases hxy : x = y
      · simp [lineDiffAux, hxy, workingOfChanges, ih]
      · simp only [lineDiffAux, hxy, if_false]
        by_cases hc : diffCost (lineDiffAux fuel xs2 (y :: ys2)) ≤
            diffCost (lineDiffAux fuel (x :: xs2) ys2)
        · simp [hc, workingOfChanges, ih]
        · simp [hc, workingOfChanges, ih]

theorem baseOfChanges_lineDiff (xs ys : List (List Char)) :
    baseOfChanges (lineDiff xs ys) = xs :=
  baseOfChanges_lineDiffAux _ xs ys

theorem workingOfChanges_lineDiff (xs ys : List (List Char)) :
    workingOfChanges (lineDiff xs ys) = ys :=
  workingOfChanges_lineDiffAux _ xs ys

/-- The version-relevance predicate of `apply_version_hunks` and
`has_non_version_changes` in `diff.rs`: the line contains the keyword
"version", the old version string, or the new version string. -/
def isVersionRelated (oldV newV line : List Char) : Bool :=
  containsAux "version".data line || containsAux oldV line || containsAux newV line

/-- The change loop of `apply_version_hunks` (diff.rs lines 141-174): equal
lines are pushed; a deleted line is pushed (kept) unless version-related; an
inserted line is pushed (applied) only when version-related. -/
def processChanges (oldV newV : List Char) : List Change → List (List Char)
  | [] => []
  | Change.equal l :: rest => l :: processChanges oldV newV rest
  | Change.delete l :: rest =>
    if isVersionRelated oldV newV l then processChanges oldV newV rest
    else l :: processChanges oldV newV rest
  | Change.insert l :: rest =>
    if isVersionRelated oldV newV l then l :: processChanges oldV newV rest
    else processChanges oldV newV rest

/-- `apply_version_hunks(head_content, working_content, old_version,
new_version)` of diff.rs: diff the two texts by lines and rebuild the merged
content change by change.  (The Rust function returns `Ok` on every path, so
the model is total.) -/
def applyVersionHunks (headContent workingContent oldV newV : String) : String :=
  ⟨joinAll (processChanges oldV.data newV.data
    (lineDiff (splitLines headContent) (splitLines workingContent)))⟩

/-- The change loop of `has_non_version_changes` (diff.rs lines 203-215):
true as soon as one inserted or deleted line is not version-related. -/
def hasNonVersionChangesAux (oldV newV : List Char) : List Change → Bool
  | [] => false
  | Change.equal _ :: rest => hasNonVersionChangesAux oldV newV rest
  | Change.delete l :: rest =>
    if isVersionRelated oldV newV l then hasNonVersionChangesAux oldV newV rest
    else true
  | Change.insert l :: rest =>
    if isVersionRelated oldV newV l then hasNonVersionChangesAux oldV newV rest
    else true

/-- `has_non_version_changes(head, working, old_version, new_version)` of
diff.rs. -/
def hasNonVersionChanges (headContent workingContent oldV newV : String) : Bool :=
  hasNonVersionChangesAux oldV.data newV.data
    (lineDiff (splitLines headContent) (splitLines workingContent))

/-- Per-change merge rule as the spec states it: copy an equal line, drop a
deleted line exactly when the predicate holds for it (else keep it), include
an inserted line exactly when the predicate holds for it (else omit it). -/
def mergeRule (oldV newV : List Char) (c : Change) : Option (List Char) :=
  match c with
  | Change.equal l => some l
  | Change.delete l => if isVersionRelated oldV newV l then none else some l
  | Change.insert l => if isVersionRelated oldV newV l then some l else none

theorem processChanges_eq_filterMap (oldV newV : List Char) (cs : List Change) :
    processChanges oldV newV cs = cs.filterMap (mergeRule oldV newV) := by
  induction cs with
  | nil => simp [processChanges]
  | cons c rest ih =>
    cases c with
    | equal l => simp [processChanges, mergeRule, ih]
    | delete l =>
      by_cases h : isVersionRelated oldV newV l = true <;>
        simp [processChanges, mergeRule, h, ih]
    | insert l =>
      by_cases h : isVersionRelated oldV newV l = true <;>
        simp [processChanges, mergeRule, h, ih]

/-- Spec-side test of one change: an equal line passes; a changed (deleted
or inserted) line passes exactly when it contains the keyword "version", the
old version string, or the new version string. -/
def changedLineOk (oldV newV : List Char) : Change → Bool
  | Change.equal _ => true
  | Change.delete l =>
    containsAux "version".data l || containsAux oldV l || containsAux newV l
  | Change.insert l =>
    containsAux "version".data l || containsAux oldV l || containsAux newV l

theorem hasNonVersionChangesAux_eq_not_all (oldV newV : List Char)
    (cs : List Change) :
    hasNonVersionChangesAux oldV newV cs = !cs.all (changedLineOk oldV newV) := by
  induction cs with
  | nil => simp [hasNonVersionChangesAux]
  | cons c rest ih =>
    cases c with
    | equal l => simp [hasNonVersionChangesAux, changedLineOk, ih]
    | delete l =>
      by_cases h : isVersionRelated oldV newV l = true
      · have hok : changedLineOk oldV newV (Change.delete l) = true := h
        simp [hasNonVersionChangesAux, h, hok, ih]
      · have hok : changedLineOk oldV newV (Change.delete l) = false := by
          simpa [isVersionRelated, changedLineOk] using h
        simp [hasNonVersionChangesAux, h, hok]
    | insert l =>
      by_cases h : isVersionRelated oldV newV l = true
      · have hok : changedLineOk oldV newV (Change.insert l) = true := h
        simp [hasNonVersionChangesAux, h, hok, ih]
      · have hok : changedLineOk oldV newV (Change.insert l) = false := by
          simpa [isVersionRelated, changedLineOk] using h
        simp [hasNonVersionChangesAux, h, hok]

/-- Claim C3: the merged output of `apply_version_hunks` is built
line-by-line from the line diff of the base text against the working text —
every equal line is copied, a deleted line is dropped exactly when the
version-relevance predicate holds for it and kept otherwise, an inserted
line is included exactly when the predicate holds for it and omitted
otherwise, and no other lines are added (the diff projects exactly onto the
two inputs); the spec example merges to "a\nversion=2\nb\n". -/
theorem apply_version_hunks_per_line_semantics
    (headContent workingContent oldV newV : String) :
    (applyVersionHunks headContent workingContent oldV newV).data
        = joinAll ((lineDiff (splitLines headContent) (splitLines workingContent)).filterMap
            (mergeRule oldV.data newV.data))
    ∧ baseOfChanges (lineDiff (splitLines headContent) (splitLines workingContent))
        = splitLines headContent
    ∧ workingOfChanges (lineDiff (splitLines headContent) (splitLines workingContent))
        = splitLines workingContent
    ∧ applyVersionHunks "a\nversion=1\nb\n" "a2\nversion=2\nb\n" "1.0.0" "2.0.0"
        = "a\nversion=2\nb\n" := by
  refine ⟨?_, baseOfChanges_lineDiff _ _, workingOfChanges_lineDiff _ _, ?_⟩
  · simp [applyVersionHunks, processChanges_eq_filterMap]
  · decide

/-- Claim C9: `has_non_version_changes` returns false exactly when every
changed (inserted or deleted) line of the line diff satisfies the generic
predicate (contains "version", the old version string, or the new version
string), and returns true exactly when some changed line fails it. -/
theorem has_non_version_changes_characterization
    (headContent workingContent oldV newV : String) :
    (hasNonVersionChanges headContent workingContent oldV newV = false ↔
      ∀ c ∈ lineDiff (splitLines headContent) (splitLines workingContent),
        changedLineOk oldV.data newV.data c = true)
    ∧ (hasNonVersionChanges headContent workingContent oldV newV = true ↔
      ∃ c ∈ lineDiff (splitLines headContent) (splitLines workingContent),
        changedLineOk oldV.data newV.data c = false) := by
  constructor
  · rw [hasNonVersionChanges, hasNonVersionChangesAux_eq_not_all]
    simp
  · rw [hasNonVersionChanges, hasNonVersionChangesAux_eq_not_all]
    simp

/-- Entry kind of a tree entry, modelling `gix::objs::tree::EntryKind`. -/
inductive EntryKind where
  | blob
  | blobExecutable
  | tree
  | link
  | commit
deriving DecidableEq

/-- One tree entry, modelling `gix::objs::tree::Entry`: a mode, a filename
(the name inside its parent tree, not a full path), and an object id.
Object ids are abstracted to `Nat`. -/
structure TreeEntry where
  mode : EntryKind
  filename : String
  oid : Nat
deriving DecidableEq

/-- Lookup in the update map, modelling the `HashMap` built by
`update_tree_with_files` from the `(path, blob_id)` list (a later pair with
the same path overrides an earlier one, as `collect` into a `HashMap`
does). -/
def mapGet : List (String × Nat) → String → Option Nat
  | [], _ => none
  | (p, v) :: rest, k =>
    match mapGet rest k with
    | some r => some r
    | none => if p = k then some v else none

/-- Byte-wise lexicographic order on names, modelling `Vec<u8>::cmp` as
`sort_by` uses it. -/
def lexLe : List Char → List Char → Bool
  | [], _ => true
  | _ :: _, [] => false
  | a :: as, b :: bs => if a < b then true else if a = b then lexLe as bs else false

/-- Sort key of an entry, modelling the comparator of
`update_tree_with_files`: the filename, with a path separator appended when
the entry is a tree (the git directory tie-break rule). -/
def sortKey (e : TreeEntry) : List Char :=
  e.filename.data ++ (if e.mode = EntryKind.tree then ['/'] else [])

/-- Comparator relation for the entry sort. -/
def entryLe (a b : TreeEntry) : Prop :=
  lexLe (sortKey a) (sortKey b) = true

instance : DecidableRel entryLe := fun a b =>
  inferInstanceAs (Decidable (lexLe (sortKey a) (sortKey b) = true))

/-- `update_tree_with_files(repo, head_tree, file_updates)` of commit.rs
(lines 534-613), up to the external object-database write: iterate the base
tree entries; an entry whose filename is a key of the update map keeps its
mode and takes the blob id of the update, every other entry is kept unchanged;
then the entries are re-sorted with the git directory tie-break rule.  The
iteration walks only the immediate entries of `head_tree` and compares each
entry filename against the full update path — there is no recursion into
subtrees. -/
def updateTreeWithFiles (entries : List TreeEntry) (updates : List (String × Nat)) :
    List TreeEntry :=
  List.insertionSort entryLe (entries.map (fun e =>
    match mapGet updates e.filename with
    | some newOid => { mode := e.mode, filename := e.filename, oid := newOid }
    | none => e))

/-- Claim C1: every entry of the base tree reappears in the rebuilt tree —
with its mode unchanged, and with its object id replaced by the corresponding update
blob id when its path is a key of the update map and unchanged otherwise;
no base entry is absent from the result. -/
theorem update_tree_preserves_entries
    (entries : List TreeEntry) (updates : List (String × Nat))
    (e : TreeEntry) (he : e ∈ entries) :
    ∃ e2 ∈ updateTreeWithFiles entries updates,
      e2.filename = e.filename ∧ e2.mode = e.mode ∧
        e2.oid = (match mapGet updates e.filename with
          | some newOid => newOid
          | none => e.oid) := by
  refine ⟨(fun e3 => match mapGet updates e3.filename with
    | some newOid => { mode := e3.mode, filename := e3.filename, oid := newOid }
    | none => e3) e, ?_, ?_⟩
  · rw [updateTreeWithFiles, List.mem_insertionSort]
    exact List.mem_map_of_mem _ he
  · cases h : mapGet updates e.filename <;> simp [h]

/-- Witness for C1 at the concrete test of the spec (§8, property 4): base tree
with entries A, B, C and an update touching only A. -/
theorem update_tree_preserves_entries_witness :
    (⟨EntryKind.blob, "B", 2⟩ : TreeEntry) ∈
        [(⟨EntryKind.blob, "A", 1⟩ : TreeEntry), ⟨EntryKind.blob, "B", 2⟩,
          ⟨EntryKind.blob, "C", 3⟩] ∧
      ∃ e2 ∈ updateTreeWithFiles
          [⟨EntryKind.blob, "A", 1⟩, ⟨EntryKind.blob, "B", 2⟩,
            ⟨EntryKind.blob, "C", 3⟩] [("A", 10)],
        e2.filename = "B" ∧ e2.mode = EntryKind.blob ∧
          e2.oid = (match mapGet [("A", 10)] "B" with
            | some newOid => newOid
            | none => 2) :=
  ⟨by decide,
    update_tree_preserves_entries
      [⟨EntryKind.blob, "A", 1⟩, ⟨EntryKind.blob, "B", 2⟩, ⟨EntryKind.blob, "C", 3⟩]
      [("A", 10)] ⟨EntryKind.blob, "B", 2⟩ (by decide)⟩

/-- Claim C2 (code bug exhibit): an update whose path lies inside a
subdirectory never matches a top-level entry filename, so
`update_tree_with_files` silently drops it and returns the base tree
unchanged — no subtree is rebuilt and the nested blob never enters the
result, contrary to the bottom-up rebuild the spec describes and to the
documentation of the function itself ("creates a NEW tree with the specified files
changed"). -/
theorem nested_update_silently_dropped :
    updateTreeWithFiles [⟨EntryKind.tree, "src", 5⟩] [("src/lib.rs", 9)]
        = [⟨EntryKind.tree, "src", 5⟩] ∧
      updateTreeWithFiles
          [⟨EntryKind.blob, "Cargo.toml", 4⟩, ⟨EntryKind.tree, "src", 5⟩]
          [("src/Cargo.toml", 9)]
        = [⟨EntryKind.blob, "Cargo.toml", 4⟩, ⟨EntryKind.tree, "src", 5⟩] := by
  constructor
  · decide
  · decide

/-- Commit time, modelling `gix::date::Time` as `create_commit` and
`write_signature` use it: seconds since the epoch and an offset the code
treats as minutes. -/
structure GitTime where
  seconds : Int
  offset : Int
deriving DecidableEq

/-- Author/committer signature, modelling `gix::actor::Signature`. -/
structure GitSignature where
  name : String
  email : String
  time : GitTime
deriving DecidableEq

/-- Minimum-two-digit zero-padded decimal, modelling Rust format `{:02}`. -/
def pad2 (n : Nat) : String :=
  if n < 10 then "0" ++ toString n else toString n

/-- Offset field of an author/committer line, from the tail of
`write_signature` (signing.rs lines 481-487): sign from the signed
offset-in-minutes, then hours and minutes of its absolute value, each
zero-padded to two digits. -/
def formatOffset (offsetMinutes : Int) : String :=
  (if 0 ≤ offsetMinutes then "+" else "-")
    ++ pad2 (offsetMinutes.natAbs / 60) ++ pad2 (offsetMinutes.natAbs % 60)

/-- `write_signature(buf, sig)` of signing.rs (lines 472-488) as the string
it appends: `Name <email> seconds offset`. -/
def writeSignature (sig : GitSignature) : String :=
  sig.name ++ " <" ++ sig.email ++ "> " ++ toString sig.time.seconds ++ " "
    ++ formatOffset sig.time.offset

/-- `build_commit_payload(tree_id, parent_id, author, committer, message)`
of signing.rs (lines 433-469), as the successive byte pushes in source
order.  Object ids appear via their hex rendering, which the model keeps
abstract as the `treeId`/`parentId` strings. -/
def buildCommitPayload (treeId parentId : String) (author committer : GitSignature)
    (message : String) : String :=
  "tree " ++ treeId ++ "\n"
    ++ "parent " ++ parentId ++ "\n"
    ++ "author " ++ writeSignature author ++ "\n"
    ++ "committer " ++ writeSignature committer ++ "\n"
    ++ "\n"
    ++ message

theorem strData_append (a b : String) : (a ++ b).data = a.data ++ b.data := by
  cases a
  cases b
  rfl

theorem strExt {a b : String} (h : a.data = b.data) : a = b := by
  cases a
  cases b
  exact congrArg String.mk h

/-- Claim C4: the commit payload is exactly `tree <id>` newline,
`parent <id>` newline, `author <name> <email> <seconds> <±HHMM>` newline,
`committer <name> <email> <seconds> <±HHMM>` newline, a blank line, then the
message, where the offset field takes its sign from the signed
offset-in-minutes and splits its absolute value by division and modulo by 60
into two zero-padded two-digit fields (so 60 renders as +0100 and -300 as
-0500). -/
theorem build_commit_payload_format (treeId parentId : String)
    (author committer : GitSignature) (message : String) :
    buildCommitPayload treeId parentId author committer message
        = "tree " ++ treeId ++ "\nparent " ++ parentId ++ "\nauthor "
          ++ author.name ++ " <" ++ author.email ++ "> "
          ++ toString author.time.seconds ++ " "
          ++ (if 0 ≤ author.time.offset then "+" else "-")
          ++ pad2 (author.time.offset.natAbs / 60)
          ++ pad2 (author.time.offset.natAbs % 60)
          ++ "\ncommitter " ++ committer.name ++ " <" ++ committer.email ++ "> "
          ++ toString committer.time.seconds ++ " "
          ++ (if 0 ≤ committer.time.offset then "+" else "-")
          ++ pad2 (committer.time.offset.natAbs / 60)
          ++ pad2 (committer.time.offset.natAbs % 60)
          ++ "\n\n" ++ message
      ∧ formatOffset 60 = "+0100" ∧ formatOffset (-300) = "-0500"
      ∧ formatOffset 0 = "+0000" := by
  refine ⟨?_, by decide, by decide, by decide⟩
  apply strExt
  simp [buildCommitPayload, writeSignature, formatOffset, strData_append]

/-- Signing format, modelling `SigningFormat` of signing.rs. -/
inductive SigningFormat where
  | gpg
  | ssh
deriving DecidableEq

/-- Signing configuration, modelling `SigningConfig` of signing.rs. -/
structure SigningConfig where
  enabled : Bool
  format : SigningFormat
  signingKey : Option String
deriving DecidableEq

/-- Error text of `sign_commit_payload` when signing is enabled without a
configured key (signing.rs lines 136-140). -/
def noKeyErrorMsg : String :=
  "Commit signing is enabled but no signing key is configured.\nPlease set user.signingkey in git config:\n  git config user.signingkey <key-path-or-id>"

/-- Error text of `sign_commit_payload` for the GPG format (signing.rs
lines 147-152), directing the user to SSH signing. -/
def gpgErrorMsg : String :=
  "GPG signing is not yet implemented in cargo-version-info.\nPlease use SSH signing instead:\n  git config gpg.format ssh\n  git config user.signingkey ~/.ssh/id_ed25519.pub"

/-- Outcome of the pure dispatch part of `sign_commit_payload`: no signature
(signing disabled, `Ok(None)`), a fatal error (`bail!`), or a hand-off to
`sign_with_ssh` with the configured key — the SSH call itself talks to an
agent or the filesystem and stays external. -/
inductive SignOutcome where
  | noSignature
  | sshSign (key : String) (payload : List Nat)
  | failure (msg : String)
deriving DecidableEq

/-- `sign_commit_payload(config, payload)` of signing.rs (lines 126-157), up
to the external `sign_with_ssh` call: disabled means `None`; enabled with no
key is a configuration error; enabled with a key dispatches on the format,
SSH proceeding to sign and GPG failing with the use-SSH error. -/
def signCommitPayload (config : SigningConfig) (payload : List Nat) : SignOutcome :=
  if !config.enabled then SignOutcome.noSignature
  else
    match config.signingKey with
    | none => SignOutcome.failure noKeyErrorMsg
    | some key =>
      match config.format with
      | SigningFormat.ssh => SignOutcome.sshSign key payload
      | SigningFormat.gpg => SignOutcome.failure gpgErrorMsg

/-- Claim C5: with signing disabled the dispatch returns no signature; with
signing enabled and no key it fails with the configuration error — it never
hands off to signing and never returns the disabled outcome; with signing
enabled, a key, and the GPG format it fails with the error directing the
user to SSH signing. -/
theorem sign_commit_payload_dispatch (config : SigningConfig) (payload : List Nat) :
    (config.enabled = false →
      signCommitPayload config payload = SignOutcome.noSignature)
    ∧ (config.enabled = true → config.signingKey = none →
      signCommitPayload config payload = SignOutcome.failure noKeyErrorMsg
        ∧ (∀ k p, signCommitPayload config payload ≠ SignOutcome.sshSign k p)
        ∧ signCommitPayload config payload ≠ SignOutcome.noSignature)
    ∧ (∀ k, config.enabled = true → config.signingKey = some k →
      config.format = SigningFormat.gpg →
      signCommitPayload config payload = SignOutcome.failure gpgErrorMsg
        ∧ strContains gpgErrorMsg "SSH signing" = true) := by
  refine ⟨?_, ?_, ?_⟩
  · intro h
    simp [signCommitPayload, h]
  · intro h hk
    simp [signCommitPayload, h, hk]
  · intro k h hk hf
    simp [signCommitPayload, h, hk, hf]
    decide

/-- Addition modulo 2^64 (64-bit wrapping addition). -/
def add64 (a b : Nat) : Nat := (a + b) % 2 ^ 64

/-- Right rotation of a 64-bit word by `n` bits. -/
def rotr64 (n x : Nat) : Nat :=
  (x % 2 ^ 64) / 2 ^ n + (x % 2 ^ n) * 2 ^ (64 - n)

/-- Logical right shift of a 64-bit word by `n` bits. -/
def shr64 (n x : Nat) : Nat := (x % 2 ^ 64) / 2 ^ n

/-- Bitwise complement within 64 bits. -/
def not64 (x : Nat) : Nat := (2 ^ 64 - 1) - x % 2 ^ 64

/-- SHA-512 Ch function. -/
def chFn (x y z : Nat) : Nat := (x &&& y) ^^^ (not64 x &&& z)

/-- SHA-512 Maj function. -/
def majFn (x y z : Nat) : Nat := (x &&& y) ^^^ (x &&& z) ^^^ (y &&& z)

/-- SHA-512 Σ0. -/
def bigSigma0 (x : Nat) : Nat := rotr64 28 x ^^^ rotr64 34 x ^^^ rotr64 39 x

/-- SHA-512 Σ1. -/
def bigSigma1 (x : Nat) : Nat := rotr64 14 x ^^^ rotr64 18 x ^^^ rotr64 41 x

/-- SHA-512 σ0. -/
def smallSigma0 (x : Nat) : Nat := rotr64 1 x ^^^ rotr64 8 x ^^^ shr64 7 x

/-- SHA-512 σ1. -/
def smallSigma1 (x : Nat) : Nat := rotr64 19 x ^^^ rotr64 61 x ^^^ shr64 6 x

/-- SHA-512 round constants (FIPS 180-4), in decimal. -/
def sha512K : List Nat :=
  [4794697086780616226, 8158064640168781261, 13096744586834688815,
   16840607885511220156, 4131703408338449720, 6480981068601479193,
   10538285296894168987, 12329834152419229976, 15566598209576043074,
   1334009975649890238, 2608012711638119052, 6128411473006802146,
   8268148722764581231, 9286055187155687089, 11230858885718282805,
   13951009754708518548, 16472876342353939154, 17275323862435702243,
   1135362057144423861, 2597628984639134821, 3308224258029322869,
   5365058923640841347, 6679025012923562964, 8573033837759648693,
   10970295158949994411, 12119686244451234320, 12683024718118986047,
   13788192230050041572, 14330467153632333762, 15395433587784984357,
   489312712824947311, 1452737877330783856, 2861767655752347644,
   3322285676063803686, 5560940570517711597, 5996557281743188959,
   7280758554555802590, 8532644243296465576, 9350256976987008742,
   10552545826968843579, 11727347734174303076, 12113106623233404929,
   14000437183269869457, 14369950271660146224, 15101387698204529176,
   15463397548674623760, 17586052441742319658, 1182934255886127544,
   1847814050463011016, 2177327727835720531, 2830643537854262169,
   3796741975233480872, 4115178125766777443, 5681478168544905931,
   6601373596472566643, 7507060721942968483, 8399075790359081724,
   8693463985226723168, 9568029438360202098, 10144078919501101548,
   10430055236837252648, 11840083180663258601, 13761210420658862357,
   14299343276471374635, 14566680578165727644, 15097957966210449927,
   16922976911328602910, 17689382322260857208, 500013540394364858,
   748580250866718886, 1242879168328830382, 1977374033974150939,
   2944078676154940804, 3659926193048069267, 4368137639120453308,
   4836135668995329356, 5532061633213252278, 6448918945643986474,
   6902733635092675308, 7801388544844847127]

/-- SHA-512 initial hash value (FIPS 180-4), in decimal. -/
def sha512H0 : List Nat :=
  [7640891576956012808, 13503953896175478587, 4354685564936845355,
   11912009170470909681, 5840696475078001361, 11170449401992604703,
   2270897969802886507, 6620516959819538809]

/-- Split a byte list into chunks of `k` bytes (fuel-driven structural
recursion; the fuel `l.length` always suffices for `k ≥ 1`). -/
def chunksAux (k : Nat) : Nat → List Nat → List (List Nat)
  | 0, _ => []
  | _, [] => []
  | fuel + 1, x :: rest => (x :: rest).take k :: chunksAux k fuel ((x :: rest).drop k)

/-- Chunks of `k` bytes of a byte list. -/
def chunksOf (k : Nat) (l : List Nat) : List (List Nat) :=
  chunksAux k l.length l

/-- Big-endian byte list to word. -/
def bytesToWord (bs : List Nat) : Nat :=
  bs.foldl (fun acc b => acc * 256 + b % 256) 0

/-- 64-bit word to its eight big-endian bytes. -/
def wordToBytes (w : Nat) : List Nat :=
  [w / 2 ^ 56 % 256, w / 2 ^ 48 % 256, w / 2 ^ 40 % 256, w / 2 ^ 32 % 256,
   w / 2 ^ 24 % 256, w / 2 ^ 16 % 256, w / 2 ^ 8 % 256, w % 256]

/-- 128-bit big-endian length block of the SHA-512 padding. -/
def lengthBytes (bits : Nat) : List Nat :=
  (List.range 16).map (fun i => bits / 2 ^ (8 * (15 - i)) % 256)

/-- SHA-512 padding for a message of `len` bytes: the 0x80 byte, zeros up to
112 modulo 128, then the message bit length on 16 bytes. -/
def sha512Pad (len : Nat) : List Nat :=
  0x80 :: List.replicate ((112 + 128 - (len + 1) % 128) % 128) 0
    ++ lengthBytes (len * 8)

/-- Next word of the SHA-512 message schedule, extending the list `w`. -/
def nextScheduleWord (w : List Nat) : Nat :=
  add64 (add64 (smallSigma1 (w.getD (w.length - 2) 0)) (w.getD (w.length - 7) 0))
    (add64 (smallSigma0 (w.getD (w.length - 15) 0)) (w.getD (w.length - 16) 0))

/-- SHA-512 message schedule: the 16 chunk words extended to 80. -/
def schedule (w16 : List Nat) : List Nat :=
  (List.range 64).foldl (fun w _ => w ++ [nextScheduleWord w]) w16

/-- One SHA-512 compression round over the eight working variables. -/
def roundStep (st : List Nat) (kw : Nat × Nat) : List Nat :=
  let a := st.getD 0 0
  let b := st.getD 1 0
  let c := st.getD 2 0
  let d := st.getD 3 0
  let e := st.getD 4 0
  let f := st.getD 5 0
  let g := st.getD 6 0
  let h := st.getD 7 0
  let t1 := add64 (add64 (add64 (add64 h (bigSigma1 e)) (chFn e f g)) kw.1) kw.2
  let t2 := add64 (bigSigma0 a) (majFn a b c)
  [add64 t1 t2, a, b, c, add64 d t1, e, f, g]

/-- SHA-512 compression of one 128-byte chunk into the hash state. -/
def compressChunk (hst : List Nat) (chunk : List Nat) : List Nat :=
  let w := schedule ((chunksOf 8 chunk).map bytesToWord)
  let final := (sha512K.zip w).foldl roundStep hst
  List.zipWith add64 hst final

/-- SHA-512 of a byte list (FIPS 180-4), modelling `Sha512::digest` of the
`sha2` crate the source calls; 64 output bytes. -/
def sha512 (msg : List Nat) : List Nat :=
  let padded := msg ++ sha512Pad msg.length
  joinAll (((chunksOf 128 padded).foldl compressChunk sha512H0).map wordToBytes)

theorem roundStep_length (st : List Nat) (kw : Nat × Nat) :
    (roundStep st kw).length = 8 := by
  simp [roundStep]

theorem foldl_roundStep_length (l : List (Nat × Nat)) (st : List Nat)
    (h : st.length = 8) : (l.foldl roundStep st).length = 8 := by
  induction l generalizing st with
  | nil => simpa using h
  | cons a r ih => simpa using ih (roundStep st a) (roundStep_length st a)

theorem compressChunk_length (hst chunk : List Nat) (h : hst.length = 8) :
    (compressChunk hst chunk).length = 8 := by
  rw [compressChunk]
  rw [List.length_zipWith, foldl_roundStep_length _ _ h, h]
  simp

theorem foldl_compressChunk_length (chunks : List (List Nat)) (hst : List Nat)
    (h : hst.length = 8) : (chunks.foldl compressChunk hst).length = 8 := by
  induction chunks generalizing hst with
  | nil => simpa using h
  | cons c r ih => simpa using ih (compressChunk hst c) (compressChunk_length hst c h)

theorem wordToBytes_length (w : Nat) : (wordToBytes w).length = 8 := by
  simp [wordToBytes]

theorem joinAll_map_wordToBytes_length (ws : List Nat) :
    (joinAll (ws.map wordToBytes)).length = 8 * ws.length := by
  induction ws with
  | nil => simp [joinAll]
  | cons w r ih =>
    simp [joinAll, wordToBytes_length, ih]
    ring

/-- The digest really is 512 bits: 64 bytes for every payload. -/
theorem sha512_length (msg : List Nat) : (sha512 msg).length = 64 := by
  rw [sha512]
  rw [joinAll_map_wordToBytes_length]
  rw [foldl_compressChunk_length _ _ (by decide)]

/-- Four big-endian bytes of a 32-bit value, modelling
`(n as u32).to_be_bytes()`. -/
def be32 (n : Nat) : List Nat :=
  [n % 2 ^ 32 / 2 ^ 24, n / 2 ^ 16 % 256, n / 2 ^ 8 % 256, n % 256]

/-- Byte values of an ASCII string literal. -/
def strBytes (s : String) : List Nat :=
  s.data.map Char.toNat

/-- The to-be-signed blob of `sign_with_ssh_agent` (signing.rs lines
216-234), as the successive `extend_from_slice` pushes in source order: the
`SSHSIG` magic, then the namespace, an empty reserved field, the hash
algorithm name and the SHA-512 digest of the payload, each prefixed with its
32-bit big-endian length. -/
def buildSshSigBlob (payload : List Nat) : List Nat :=
  let namespaceStr := "git"
  let hashAlg := "sha512"
  let messageHash := sha512 payload
  strBytes "SSHSIG"
    ++ be32 (strBytes namespaceStr).length ++ strBytes namespaceStr
    ++ be32 0
    ++ be32 (strBytes hashAlg).length ++ strBytes hashAlg
    ++ be32 messageHash.length ++ messageHash

/-- Claim C6: the blob handed to the SSH agent is exactly the six magic
bytes `SSHSIG`, then the length-prefixed namespace "git", a length-prefixed
empty reserved field, the length-prefixed hash-algorithm name "sha512", and
the length-prefixed SHA-512 digest (64 bytes) of the raw payload. -/
theorem ssh_signing_blob_format (payload : List Nat) :
    buildSshSigBlob payload
        = [83, 83, 72, 83, 73, 71]
          ++ ([0, 0, 0, 3] ++ [103, 105, 116])
          ++ [0, 0, 0, 0]
          ++ ([0, 0, 0, 6] ++ [115, 104, 97, 53, 49, 50])
          ++ ([0, 0, 0, 64] ++ sha512 payload)
      ∧ (sha512 payload).length = 64 := by
  refine ⟨?_, sha512_length payload⟩
  have h1 : (strBytes "SSHSIG" : List Nat) = [83, 83, 72, 83, 73, 71] := by decide
  have h2 : (strBytes "git" : List Nat) = [103, 105, 116] := by decide
  have h3 : (strBytes "sha512" : List Nat) = [115, 104, 97, 53, 49, 50] := by decide
  have h4 : be32 (strBytes "git").length = [0, 0, 0, 3] := by decide
  have h5 : be32 0 = [0, 0, 0, 0] := by decide
  have h6 : be32 (strBytes "sha512").length = [0, 0, 0, 6] := by decide
  have h7 : be32 64 = [0, 0, 0, 64] := by decide
  have h8 : be32 3 = [0, 0, 0, 3] := by decide
  have h9 : be32 6 = [0, 0, 0, 6] := by decide
  simp [buildSshSigBlob, sha512_length payload, h1, h2, h3, h4, h5, h6, h7, h8, h9]

/-- One SSH agent identity as `find_matching_identity` inspects it: the
string rendering of its SHA-256 fingerprint and its comment.  (The key
material itself never influences the selection.) -/
structure AgentIdentity where
  fingerprintStr : String
  comment : String
deriving DecidableEq

/-- Rule 1 of `find_matching_identity` (signing.rs lines 305-309): the
fingerprint of the identity equals the fingerprint read from the configured
public-key file, when that file could be read. -/
def matchesTargetFp (targetFp : Option String) (ident : AgentIdentity) : Bool :=
  match targetFp with
  | some tfp => ident.fingerprintStr == tfp
  | none => false

/-- Rule 2 (signing.rs lines 311-315): fingerprint-string substring match in
either direction. -/
def matchesFpSubstring (signingKey : String) (ident : AgentIdentity) : Bool :=
  strContains ident.fingerprintStr signingKey
    || strContains signingKey ident.fingerprintStr

/-- Rule 3 (signing.rs lines 317-321): non-empty comment substring match in
either direction. -/
def matchesComment (signingKey : String) (ident : AgentIdentity) : Bool :=
  !(ident.comment == "")
    && (strContains ident.comment signingKey
      || strContains signingKey ident.comment)

/-- The loop of `find_matching_identity` (signing.rs lines 290-322): walk
the identities in order, and inside each iteration try rule 1, then rule 2,
then rule 3, returning the current index on the first rule that fires. -/
def findIdentityAux (signingKey : String) (targetFp : Option String) :
    Nat → List AgentIdentity → Option Nat
  | _, [] => none
  | idx, ident :: rest =>
    if matchesTargetFp targetFp ident then some idx
    else if matchesFpSubstring signingKey ident then some idx
    else if matchesComment signingKey ident then some idx
    else findIdentityAux signingKey targetFp (idx + 1) rest

/-- Error payload of `find_matching_identity` (signing.rs lines 325-349):
the available keys, each shown as its comment when non-empty and its
fingerprint string otherwise. -/
def availableKeys (ids : List AgentIdentity) : List String :=
  ids.map (fun i => if i.comment == "" then i.fingerprintStr else i.comment)

/-- Suffix test over characters, modelling Rust `str::ends_with`. -/
def strEndsWith (s suffix : String) : Bool :=
  suffix.data.isSuffixOf s.data

/-- The gate of the target-fingerprint derivation (signing.rs lines
270-271): the configured signing key looks like a path to a public-key file
when it ends with `.pub` or contains a path separator. -/
def isPathShapedKey (signingKey : String) : Bool :=
  strEndsWith signingKey ".pub" || strContains signingKey "/"
    || strContains signingKey "\\"

/-- The public-key file path of the derivation (signing.rs lines 273-278):
the key itself when it already ends with `.pub`, else the key with `.pub`
appended. -/
def pubKeyPath (signingKey : String) : String :=
  if strEndsWith signingKey ".pub" then signingKey else signingKey ++ ".pub"

/-- The `target_fingerprint` derivation of `find_matching_identity`
(signing.rs lines 269-288): `some` only for a path-shaped signing key whose
public-key file reads and parses; `readPubKeyFp` stands for the external
filesystem read `PublicKey::read_openssh_file` plus `fingerprint(Sha256)`,
returning `none` when the file is missing or unparsable. -/
def deriveTargetFp (readPubKeyFp : String → Option String)
    (signingKey : String) : Option String :=
  if isPathShapedKey signingKey then readPubKeyFp (pubKeyPath signingKey)
  else none

/-- `find_matching_identity(identities, signing_key)` of signing.rs (lines
262-350): derive the target fingerprint from the configured key (gated on a
path-shaped key), then walk the identities; the selected index, or the list
of available keys as the error. -/
def findMatchingIdentity (ids : List AgentIdentity) (signingKey : String)
    (readPubKeyFp : String → Option String) : Except (List String) Nat :=
  match findIdentityAux signingKey (deriveTargetFp readPubKeyFp signingKey) 0 ids with
  | some idx => Except.ok idx
  | none => Except.error (availableKeys ids)

/-- Selection as claim C7 states it: each rule is applied across the whole
list before the next rule is tried, with the same derived target
fingerprint. -/
def specPrioritySelect (ids : List AgentIdentity) (signingKey : String)
    (readPubKeyFp : String → Option String) : Except (List String) Nat :=
  match ids.findIdx? (matchesTargetFp (deriveTargetFp readPubKeyFp signingKey)) with
  | some idx => Except.ok idx
  | none =>
    match ids.findIdx? (matchesFpSubstring signingKey) with
    | some idx => Except.ok idx
    | none =>
      match ids.findIdx? (matchesComment signingKey) with
      | some idx => Except.ok idx
      | none => Except.error (availableKeys ids)

/-- Counterexample to claim C7, at a reachable input: the signing key is a
path (so the target fingerprint really is derived from the public-key file,
whose read yields the fingerprint of the second identity), and the path
contains the substring "dev", which is also the comment of the first
identity.
The code selects index 0 (comment rule on the first identity), while
rule-priority across the whole list (as the claim states it) would select
index 1 (file-fingerprint rule on the second identity). -/
theorem find_matching_identity_priority_counterexample :
    findMatchingIdentity
        [⟨"SHA256:aaa", "dev"⟩, ⟨"SHA256:bbb", ""⟩]
        "/home/dev/.ssh/release.pub"
        (fun p => if p = "/home/dev/.ssh/release.pub" then some "SHA256:bbb" else none)
      = Except.ok 0
      ∧ specPrioritySelect
        [⟨"SHA256:aaa", "dev"⟩, ⟨"SHA256:bbb", ""⟩]
        "/home/dev/.ssh/release.pub"
        (fun p => if p = "/home/dev/.ssh/release.pub" then some "SHA256:bbb" else none)
      = Except.ok 1
      ∧ deriveTargetFp
        (fun p => if p = "/home/dev/.ssh/release.pub" then some "SHA256:bbb" else none)
        "/home/dev/.ssh/release.pub" = some "SHA256:bbb"
      ∧ (0 : Nat) ≠ 1 := by
  refine ⟨?_, ?_, ?_, by decide⟩
  · rfl
  · rfl
  · rfl

/-- First index accepted by a predicate (spec-side helper for the amended
claim). -/
def firstMatchIdx (p : AgentIdentity → Bool) : List AgentIdentity → Option Nat
  | [] => none
  | ident :: rest =>
    if p ident then some 0 else (firstMatchIdx p rest).map (· + 1)

theorem findIdentityAux_eq_firstMatchIdx (signingKey : String)
    (targetFp : Option String) (ids : List AgentIdentity) :
    ∀ n, findIdentityAux signingKey targetFp n ids
      = (firstMatchIdx (fun i => matchesTargetFp targetFp i
          || matchesFpSubstring signingKey i || matchesComment signingKey i) ids).map
        (· + n) := by
  induction ids with
  | nil => intro n; simp [findIdentityAux, firstMatchIdx]
  | cons ident rest ih =>
    intro n
    by_cases h1 : matchesTargetFp targetFp ident = true
    · simp [findIdentityAux, firstMatchIdx, h1]
    · by_cases h2 : matchesFpSubstring signingKey ident = true
      · simp [findIdentityAux, firstMatchIdx, h1, h2]
      · by_cases h3 : matchesComment signingKey ident = true
        · simp [findIdentityAux, firstMatchIdx, h1, h2, h3]
        · simp only [findIdentityAux, firstMatchIdx, h1, h2, h3, if_false,
            Bool.or_eq_true, false_or, Bool.false_eq_true, Option.map_map]
          rw [ih (n + 1)]
          congr 1
          funext m
          simp [Function.comp]
          omega

/-- Claim C7 amended: `find_matching_identity` selects the first identity in
list order that matches any of the three rules — checked per identity in the
order public-key-file fingerprint (derived only for a path-shaped signing
key whose file reads), fingerprint substring, comment substring — and when
no identity matches any rule it fails with the list of available keys
(comment when non-empty, else fingerprint). -/
theorem find_matching_identity_first_match (ids : List AgentIdentity)
    (signingKey : String) (readPubKeyFp : String → Option String) :
    findMatchingIdentity ids signingKey readPubKeyFp
      = match firstMatchIdx (fun i =>
          matchesTargetFp (deriveTargetFp readPubKeyFp signingKey) i
          || matchesFpSubstring signingKey i || matchesComment signingKey i) ids with
        | some idx => Except.ok idx
        | none => Except.error (availableKeys ids) := by
  rw [findMatchingIdentity, findIdentityAux_eq_firstMatchIdx]
  cases h : firstMatchIdx (fun i =>
      matchesTargetFp (deriveTargetFp readPubKeyFp signingKey) i
      || matchesFpSubstring signingKey i || matchesComment signingKey i) ids with
  | none => simp
  | some idx => simp

/-- Whitespace as the regex class `\s` of the Rust `regex` crate matches it. -/
def isWsChar (c : Char) : Bool :=
  c = ' ' || c = '\t' || c = '\n' || c = '\x0d' || c = '\x0c' || c = '\x0b'

/-- Match the regex tail `\s*=\s*"<value>"` at the head of `s`. -/
def matchEqQuoted (value s : List Char) : Bool :=
  match s.dropWhile isWsChar with
  | '=' :: rest =>
    (match rest.dropWhile isWsChar with
     | '"' :: r2 =>
       value.isPrefixOf r2 &&
         (match r2.drop value.length with
          | '"' :: _ => true
          | _ => false)
     | _ => false)
  | _ => false

/-- Match the README pattern `<name>(\s|[-_])?\s*=\s*"<version>"` at the
head of `s` (the regex of `is_readme_version_line`, diff.rs lines 244-248). -/
def matchReadmeAt (nameL value s : List Char) : Bool :=
  nameL.isPrefixOf s &&
    (let rest := s.drop nameL.length
     matchEqQuoted value rest ||
       (match rest with
        | c :: r2 => (isWsChar c || c = '-' || c = '_') && matchEqQuoted value r2
        | [] => false))

/-- Unanchored search of a predicate over every suffix (regex `is_match`). -/
def searchAt (p : List Char → Bool) : List Char → Bool
  | [] => p []
  | c :: rest => p (c :: rest) || searchAt p rest

/-- `is_readme_version_line(line, crate_name, old_version, new_version)` of
diff.rs (lines 231-258): the line matches `name = "version"` for the
hyphenated or underscored crate name and the old or new version. -/
def isReadmeVersionLine (line : List Char) (crateName oldV newV : String) : Bool :=
  let hyphenated := crateName.data.map (fun c => if c = '_' then '-' else c)
  let underscored := crateName.data.map (fun c => if c = '-' then '_' else c)
  [hyphenated, underscored].any (fun nm =>
    [oldV.data, newV.data].any (fun v =>
      searchAt (matchReadmeAt nm v) line))

/-- Match `<keyword>\s*=\s*"<value>"` anywhere in the line (the regexes of
`is_cargo_lock_version_line`, diff.rs lines 372-387). -/
def lockKVMatch (keyword value line : List Char) : Bool :=
  searchAt (fun s => keyword.isPrefixOf s && matchEqQuoted value (s.drop keyword.length)) line

/-- `is_cargo_lock_version_line(line, crate_name, old_version, new_version)`
of diff.rs (lines 365-390): `name = "<crate>"`, or `version = "<old>"`, or
`version = "<new>"`, each matched without checking the record block. -/
def isCargoLockVersionLine (line : List Char) (crateName oldV newV : String) : Bool :=
  lockKVMatch "name".data crateName.data line
    || lockKVMatch "version".data oldV.data line
    || lockKVMatch "version".data newV.data line

/-- Change loop shared by `apply_readme_version_hunks` (diff.rs lines
287-312) and the effective second pass of `apply_cargo_lock_version_hunks`
(diff.rs lines 461-493; its first hunk-grouping pass is discarded by
`result.clear()` and has no effect on the output), parametrized by the
per-line relevance predicate. -/
def processChangesWith (pred : List Char → Bool) : List Change → List (List Char)
  | [] => []
  | Change.equal l :: rest => l :: processChangesWith pred rest
  | Change.delete l :: rest =>
    if pred l then processChangesWith pred rest
    else l :: processChangesWith pred rest
  | Change.insert l :: rest =>
    if pred l then l :: processChangesWith pred rest
    else processChangesWith pred rest

/-- Change loop shared by `has_non_readme_version_changes` (diff.rs lines
339-349) and `has_non_cargo_lock_version_changes` (diff.rs lines 520-530). -/
def hasNonChangesWith (pred : List Char → Bool) : List Change → Bool
  | [] => false
  | Change.equal _ :: rest => hasNonChangesWith pred rest
  | Change.delete l :: rest =>
    if pred l then hasNonChangesWith pred rest else true
  | Change.insert l :: rest =>
    if pred l then hasNonChangesWith pred rest else true

/-- `apply_readme_version_hunks` of diff.rs (lines 276-315). -/
def applyReadmeVersionHunks (headContent workingContent crateName oldV newV : String) :
    String :=
  ⟨joinAll (processChangesWith (fun l => isReadmeVersionLine l crateName oldV newV)
    (lineDiff (splitLines headContent) (splitLines workingContent)))⟩

/-- `has_non_readme_version_changes` of diff.rs (lines 330-352). -/
def hasNonReadmeVersionChanges (headContent workingContent crateName oldV newV : String) :
    Bool :=
  hasNonChangesWith (fun l => isReadmeVersionLine l crateName oldV newV)
    (lineDiff (splitLines headContent) (splitLines workingContent))

/-- `apply_cargo_lock_version_hunks` of diff.rs (lines 416-496), as its
effective output (see `processChangesWith`). -/
def applyCargoLockVersionHunks (headContent workingContent crateName oldV newV : String) :
    String :=
  ⟨joinAll (processChangesWith (fun l => isCargoLockVersionLine l crateName oldV newV)
    (lineDiff (splitLines headContent) (splitLines workingContent)))⟩

/-- `has_non_cargo_lock_version_changes` of diff.rs (lines 511-533). -/
def hasNonCargoLockVersionChanges
    (headContent workingContent crateName oldV newV : String) : Bool :=
  hasNonChangesWith (fun l => isCargoLockVersionLine l crateName oldV newV)
    (lineDiff (splitLines headContent) (splitLines workingContent))

/-- Git object as the commit pipeline writes it, modelling the gix object
kinds it touches. -/
inductive GitObject where
  | blob (content : String)
  | treeObj (entries : List TreeEntry)
  | commitObj (treeOid : Nat) (parentOid : Nat) (author committer : GitSignature)
      (message : String) (extraHeaders : List (String × String))
deriving DecidableEq

/-- Whether a stored object is a commit object. -/
def isCommitObject : GitObject → Bool
  | GitObject.commitObj _ _ _ _ _ _ => true
  | _ => false

/-- Observable repository state threaded through the pipeline: the object
stored contents, the commit the current branch points to, and the tree the
index mirrors.  Object ids are abstracted to store positions; the
content-addressing of gix (identical content, identical id) is not needed by
any claim proved here. -/
structure RepoState where
  objects : List GitObject
  headCommit : Nat
  indexTree : Option Nat
deriving DecidableEq

/-- `repo.write_object(..)`: append the object, return its id. -/
def writeObject (st : RepoState) (o : GitObject) : Nat × RepoState :=
  (st.objects.length, { st with objects := st.objects ++ [o] })

/-- Repository configuration as the pipeline reads it: `user.name`,
`user.email`, `commit.gpgsign`, `gpg.format`, `user.signingkey`. -/
structure GitConfig where
  userName : Option String
  userEmail : Option String
  commitGpgSign : Option Bool
  gpgFormat : Option String
  signingKey : Option String
deriving DecidableEq

/-- Format parsing of `read_signing_config` (signing.rs lines 86-96):
"openpgp" means GPG, "ssh" means SSH, anything else or absent defaults to
SSH. -/
def parseGpgFormat : Option String → SigningFormat
  | some s =>
    if s = "openpgp" then SigningFormat.gpg
    else if s = "ssh" then SigningFormat.ssh
    else SigningFormat.ssh
  | none => SigningFormat.ssh

/-- `read_signing_config(repo)` of signing.rs (lines 79-106). -/
def readSigningConfig (cfg : GitConfig) : SigningConfig :=
  { enabled := cfg.commitGpgSign.getD false
    format := parseGpgFormat cfg.gpgFormat
    signingKey := cfg.signingKey }

/-- `get_signature_from_config(repo)` of commit.rs (lines 845-887): fail
when `user.name` or `user.email` is missing, else a signature carrying the
current time with a zero (UTC) offset. -/
def getSignatureFromConfig (cfg : GitConfig) (nowSeconds : Int) :
    Except String GitSignature :=
  match cfg.userName with
  | none => Except.error "Git config user.name is not set"
  | some userName =>
    match cfg.userEmail with
    | none => Except.error "Git config user.email is not set"
    | some userEmail =>
      Except.ok
        { name := userName, email := userEmail
          time := { seconds := nowSeconds, offset := 0 } }

/-- The extra-headers block of `create_commit` (commit.rs lines 672-694):
when signing is enabled, build the payload, dispatch the signing, and turn
the signature into a `gpgsig` header; the external `sign_with_ssh` result
enters as `sshOutcome`.  A signing failure is an error, never a silently
unsigned commit. -/
def buildExtraHeaders (cfg : GitConfig) (sshOutcome : Except String String)
    (author committer : GitSignature) (commitMessage : String)
    (treeOid parentOid : Nat) : Except String (List (String × String)) :=
  let signingConfig := readSigningConfig cfg
  if signingConfig.enabled then
    match signCommitPayload signingConfig
        (strBytes (buildCommitPayload (toString treeOid) (toString parentOid)
          author committer commitMessage)) with
    | SignOutcome.noSignature => Except.ok []
    | SignOutcome.failure msg => Except.error msg
    | SignOutcome.sshSign _ _ =>
      match sshOutcome with
      | Except.error e => Except.error e
      | Except.ok sig => Except.ok [("gpgsig", sig)]
  else Except.ok []

/-- `create_commit(repo, tree_id, parent_id, old_version, new_version)` of
commit.rs (lines 648-711): compose the conventional message, read the
author from config and reuse it as committer, build the extra headers
(signing), then write the commit object.  Nothing is written before a
failure, so a failure leaves the state with the caller. -/
def createCommit (cfg : GitConfig) (nowSeconds : Int)
    (sshOutcome : Except String String) (treeOid parentOid : Nat)
    (oldV newV : String) (st : RepoState) : Except String (Nat × RepoState) :=
  let commitMessage := "chore(version): bump " ++ oldV ++ " -> " ++ newV
  match getSignatureFromConfig cfg nowSeconds with
  | Except.error e => Except.error e
  | Except.ok author =>
    let committer := author
    match buildExtraHeaders cfg sshOutcome author committer commitMessage
        treeOid parentOid with
    | Except.error e => Except.error e
    | Except.ok extraHeaders =>
      let (commitId, st2) := writeObject st
        (GitObject.commitObj treeOid parentOid author committer commitMessage
          extraHeaders)
      Except.ok (commitId, st2)

/-- File kind of an additional file, modelling `FileType` of commit.rs. -/
inductive FileKind where
  | cargoLock
  | readme
  | other
deriving DecidableEq

/-- An additional file of the bump commit, modelling `AdditionalFile` of
commit.rs (the path already repository-relative, as the orchestrator
computes it). -/
structure AdditionalFile where
  path : String
  workingContent : String
  headContent : Option String
  fileKind : FileKind
deriving DecidableEq

/-- The per-file staging decision of `commit_version_changes_with_files`
(commit.rs lines 349-400): README and Cargo.lock files with HEAD content get
hunk-level filtering when non-version changes exist, everything else is
committed as its full working content. -/
def contentToCommit (crateName oldV newV : String) (f : AdditionalFile) : String :=
  match f.headContent, f.fileKind with
  | some headContent, FileKind.readme =>
    if hasNonReadmeVersionChanges headContent f.workingContent crateName oldV newV then
      applyReadmeVersionHunks headContent f.workingContent crateName oldV newV
    else f.workingContent
  | some headContent, FileKind.cargoLock =>
    if hasNonCargoLockVersionChanges headContent f.workingContent crateName oldV newV then
      applyCargoLockVersionHunks headContent f.workingContent crateName oldV newV
    else f.workingContent
  | _, _ => f.workingContent

/-- `verify_version_changes` of commit.rs (lines 462-490), with the HEAD
lookup result passed in: a file present in HEAD must contain the old
version there and the new version in the working copy; a file absent from
HEAD must mention "version" and the new version. -/
def verifyVersionChanges (headManifestContent : Option String)
    (currentContent oldV newV : String) : Bool :=
  match headManifestContent with
  | some headContent =>
    strContains headContent oldV && strContains currentContent newV
  | none =>
    strContains currentContent "version" && strContains currentContent newV

/-- The additional-files loop of `commit_version_changes_with_files`
(commit.rs lines 340-404): write one blob per file and collect the
`(path, blob_id)` updates in order. -/
def writeFileBlobs (crateName oldV newV : String) (st : RepoState) :
    List AdditionalFile → List (String × Nat) × RepoState
  | [] => ([], st)
  | f :: rest =>
    let (blobId, st1) := writeObject st
      (GitObject.blob (contentToCommit crateName oldV newV f))
    let (others, st2) := writeFileBlobs crateName oldV newV st1 rest
    ((f.path, blobId) :: others, st2)

/-- Inputs of one `commit_version_changes_with_files` run that the external
collaborators (filesystem, gix reads, SSH agent) provide. -/
structure CommitInputs where
  manifestRelPath : String
  currentContent : String
  headManifestContent : Option String
  crateName : String
  oldVersion : String
  newVersion : String
  additionalFiles : List AdditionalFile
  headTreeEntries : List TreeEntry
  headIsBranch : Bool
  nowSeconds : Int
  sshOutcome : Except String String

/-- The staging block of `commit_version_changes_with_files` (commit.rs
lines 316-407): stage the manifest (whole working file, or the
`apply_version_hunks` filtering when non-version changes exist), write its
blob, write one blob per additional file, rebuild the tree from the HEAD
entries with all the updates, and write the tree object. -/
def stageTree (inp : CommitInputs) (headContent : String) (st : RepoState) :
    Nat × RepoState :=
  let hasOtherChanges := hasNonVersionChanges headContent inp.currentContent
    inp.oldVersion inp.newVersion
  let stagedContent :=
    if hasOtherChanges then
      applyVersionHunks headContent inp.currentContent inp.oldVersion inp.newVersion
    else inp.currentContent
  let (manifestBlobId, st1) := writeObject st (GitObject.blob stagedContent)
  let (fileUpdates, st2) := writeFileBlobs inp.crateName inp.oldVersion
    inp.newVersion st1 inp.additionalFiles
  let allUpdates := (inp.manifestRelPath, manifestBlobId) :: fileUpdates
  let newEntries := updateTreeWithFiles inp.headTreeEntries allUpdates
  writeObject st2 (GitObject.treeObj newEntries)

/-- `commit_version_changes_with_files` of commit.rs (lines 269-422), in
source order: verify the version change, read the HEAD content of the manifest,
write the staged blobs and the rebuilt tree, create the commit, advance the
branch (failing on a detached HEAD), and reset the index to the HEAD tree.
The state is threaded through errors so that writes performed before a
failure stay visible. -/
def commitVersionChangesWithFiles (cfg : GitConfig) (inp : CommitInputs)
    (st : RepoState) : Except String Nat × RepoState :=
  if !verifyVersionChanges inp.headManifestContent inp.currentContent
      inp.oldVersion inp.newVersion then
    (Except.error "No version-related changes found", st)
  else
    match inp.headManifestContent with
    | none => (Except.error "File does not exist in HEAD", st)
    | some headContent =>
      let (treeOid, st3) := stageTree inp headContent st
      match createCommit cfg inp.nowSeconds inp.sshOutcome treeOid st.headCommit
          inp.oldVersion inp.newVersion st3 with
      | Except.error e => (Except.error e, st3)
      | Except.ok (commitId, st4) =>
        if !inp.headIsBranch then
          (Except.error "HEAD is not a reference (detached HEAD state)", st4)
        else
          let st5 := { st4 with headCommit := commitId }
          let st6 := { st5 with indexTree := some treeOid }
          (Except.ok commitId, st6)

theorem writeFileBlobs_shape (crateName oldV newV : String)
    (files : List AdditionalFile) :
    ∀ st : RepoState, ∃ extra,
      (writeFileBlobs crateName oldV newV st files).2.objects = st.objects ++ extra
      ∧ (∀ ob ∈ extra, isCommitObject ob = false)
      ∧ (writeFileBlobs crateName oldV newV st files).2.headCommit = st.headCommit
      ∧ (writeFileBlobs crateName oldV newV st files).2.indexTree = st.indexTree := by
  induction files with
  | nil =>
    intro st
    exact ⟨[], by simp [writeFileBlobs], by simp, by simp [writeFileBlobs],
      by simp [writeFileBlobs]⟩
  | cons f rest ih =>
    intro st
    obtain ⟨extra, h1, h2, h3, h4⟩ :=
      ih { st with objects := st.objects ++ [GitObject.blob
        (contentToCommit crateName oldV newV f)] }
    refine ⟨GitObject.blob (contentToCommit crateName oldV newV f) :: extra,
      ?_, ?_, ?_, ?_⟩
    · simp only [writeFileBlobs, writeObject]
      rw [h1]
      simp
    · intro ob hob
      rcases List.mem_cons.mp hob with hob | hob
      · rw [hob]; rfl
      · exact h2 ob hob
    · simp only [writeFileBlobs, writeObject]
      rw [h3]
    · simp only [writeFileBlobs, writeObject]
      rw [h4]

theorem getSignatureFromConfig_offset (cfg : GitConfig) (nowSeconds : Int)
    (author : GitSignature)
    (h : getSignatureFromConfig cfg nowSeconds = Except.ok author) :
    author.time.offset = 0 ∧ author.time.seconds = nowSeconds := by
  cases hn : cfg.userName with
  | none => rw [getSignatureFromConfig, hn] at h; cases h
  | some userName =>
    cases he : cfg.userEmail with
    | none => rw [getSignatureFromConfig, hn, he] at h; cases h
    | some userEmail =>
      rw [getSignatureFromConfig, hn, he] at h
      cases h
      exact ⟨rfl, rfl⟩

theorem createCommit_missing_identity (cfg : GitConfig) (nowSeconds : Int)
    (sshOutcome : Except String String) (treeOid parentOid : Nat)
    (oldV newV : String) (st : RepoState)
    (hm : cfg.userName = none ∨ cfg.userEmail = none) :
    ∃ e, createCommit cfg nowSeconds sshOutcome treeOid parentOid oldV newV st
      = Except.error e := by
  rcases hm with hm | hm
  · exact ⟨"Git config user.name is not set",
      by simp [createCommit, getSignatureFromConfig, hm]⟩
  · cases hn : cfg.userName with
    | none =>
      exact ⟨"Git config user.name is not set",
        by simp [createCommit, getSignatureFromConfig, hn]⟩
    | some userName =>
      exact ⟨"Git config user.email is not set",
        by simp [createCommit, getSignatureFromConfig, hn, hm]⟩

theorem stageTree_shape (inp : CommitInputs) (headContent : String)
    (st : RepoState) :
    ∃ extra,
      (stageTree inp headContent st).2.objects = st.objects ++ extra
      ∧ (∀ ob ∈ extra, isCommitObject ob = false)
      ∧ (stageTree inp headContent st).2.headCommit = st.headCommit
      ∧ (stageTree inp headContent st).2.indexTree = st.indexTree := by
  rw [stageTree]
  set stagedContent :=
    if hasNonVersionChanges headContent inp.currentContent inp.oldVersion
        inp.newVersion then
      applyVersionHunks headContent inp.currentContent inp.oldVersion inp.newVersion
    else inp.currentContent with hstaged
  obtain ⟨extra1, h1, h2, h3, h4⟩ :=
    writeFileBlobs_shape inp.crateName inp.oldVersion inp.newVersion
      inp.additionalFiles { st with objects := st.objects ++ [GitObject.blob stagedContent] }
  rcases hwf : writeFileBlobs inp.crateName inp.oldVersion inp.newVersion
      { st with objects := st.objects ++ [GitObject.blob stagedContent] }
      inp.additionalFiles with ⟨fileUpdates, st2⟩
  rw [hwf] at h1 h3 h4
  simp only at h1 h3 h4
  refine ⟨GitObject.blob stagedContent :: extra1
    ++ [GitObject.treeObj (updateTreeWithFiles inp.headTreeEntries
      ((inp.manifestRelPath, st.objects.length) :: fileUpdates))], ?_, ?_, ?_, ?_⟩
  · simp only [writeObject, hwf]
    simp only [h1]
    simp
  · intro ob hob
    rcases List.mem_append.mp hob with hob | hob
    · rcases List.mem_cons.mp hob with hob | hob
      · rw [hob]; rfl
      · exact h2 ob hob
    · rcases List.mem_singleton.mp hob with hob
      rw [hob]; rfl
  · simp only [writeObject, hwf]
    simpa using h3
  · simp only [writeObject, hwf]
    simpa using h4

/-- Claim C8 amended: when the repository configuration lacks `user.name` or
`user.email`, a run of `commit_version_changes_with_files` fails, writes no
commit object, and leaves the branch head and the index untouched — though
blobs and a tree may already have been written as inert orphaned objects
before the identity check, which happens inside `create_commit`. -/
theorem commit_missing_identity_no_commit_object (cfg : GitConfig)
    (inp : CommitInputs) (st : RepoState)
    (hm : cfg.userName = none ∨ cfg.userEmail = none) :
    ∃ e extra,
      (commitVersionChangesWithFiles cfg inp st).1 = Except.error e
      ∧ (commitVersionChangesWithFiles cfg inp st).2.objects = st.objects ++ extra
      ∧ (∀ ob ∈ extra, isCommitObject ob = false)
      ∧ (commitVersionChangesWithFiles cfg inp st).2.headCommit = st.headCommit
      ∧ (commitVersionChangesWithFiles cfg inp st).2.indexTree = st.indexTree := by
  by_cases hv : verifyVersionChanges inp.headManifestContent inp.currentContent
      inp.oldVersion inp.newVersion = true
  · cases hh : inp.headManifestContent with
    | none =>
      rw [hh] at hv
      refine ⟨"File does not exist in HEAD", [], ?_, ?_, ?_, ?_, ?_⟩ <;>
        simp [commitVersionChangesWithFiles, hv, hh]
    | some headContent =>
      rw [hh] at hv
      obtain ⟨extra, h1, h2, h3, h4⟩ := stageTree_shape inp headContent st
      rcases hst : stageTree inp headContent st with ⟨treeOid, st3⟩
      rw [hst] at h1 h3 h4
      simp only at h1 h3 h4
      obtain ⟨e, hcc⟩ := createCommit_missing_identity cfg inp.nowSeconds
        inp.sshOutcome treeOid st.headCommit inp.oldVersion inp.newVersion st3 hm
      refine ⟨e, extra, ?_, ?_, h2, ?_, ?_⟩ <;>
        simp [commitVersionChangesWithFiles, hv, hh, hst, hcc, h1, h3, h4]
  · have hv2 : verifyVersionChanges inp.headManifestContent inp.currentContent
        inp.oldVersion inp.newVersion = false := by
      simpa using hv
    refine ⟨"No version-related changes found", [], ?_, ?_, ?_, ?_, ?_⟩ <;>
      simp [commitVersionChangesWithFiles, hv2]

/-- Witness for the amended C8 at a concrete run: `user.name` missing, a
manifest whose version really changed, no additional files. -/
theorem commit_missing_identity_no_commit_object_witness :
    ((⟨none, some "dev@example.com", none, none, none⟩ : GitConfig).userName = none
        ∨ (⟨none, some "dev@example.com", none, none, none⟩ : GitConfig).userEmail = none)
      ∧ ∃ e extra,
        (commitVersionChangesWithFiles
            ⟨none, some "dev@example.com", none, none, none⟩
            ⟨"Cargo.toml", "version = \"0.2.0\"\n", some "version = \"0.1.0\"\n",
              "demo", "0.1.0", "0.2.0", [], [⟨EntryKind.blob, "Cargo.toml", 0⟩],
              true, 1000, Except.ok "sig"⟩
            ⟨[], 42, none⟩).1 = Except.error e
        ∧ (commitVersionChangesWithFiles
            ⟨none, some "dev@example.com", none, none, none⟩
            ⟨"Cargo.toml", "version = \"0.2.0\"\n", some "version = \"0.1.0\"\n",
              "demo", "0.1.0", "0.2.0", [], [⟨EntryKind.blob, "Cargo.toml", 0⟩],
              true, 1000, Except.ok "sig"⟩
            ⟨[], 42, none⟩).2.objects = ([] : List GitObject) ++ extra
        ∧ (∀ ob ∈ extra, isCommitObject ob = false)
        ∧ (commitVersionChangesWithFiles
            ⟨none, some "dev@example.com", none, none, none⟩
            ⟨"Cargo.toml", "version = \"0.2.0\"\n", some "version = \"0.1.0\"\n",
              "demo", "0.1.0", "0.2.0", [], [⟨EntryKind.blob, "Cargo.toml", 0⟩],
              true, 1000, Except.ok "sig"⟩
            ⟨[], 42, none⟩).2.headCommit = 42
        ∧ (commitVersionChangesWithFiles
            ⟨none, some "dev@example.com", none, none, none⟩
            ⟨"Cargo.toml", "version = \"0.2.0\"\n", some "version = \"0.1.0\"\n",
              "demo", "0.1.0", "0.2.0", [], [⟨EntryKind.blob, "Cargo.toml", 0⟩],
              true, 1000, Except.ok "sig"⟩
            ⟨[], 42, none⟩).2.indexTree = none :=
  ⟨Or.inl rfl,
    commit_missing_identity_no_commit_object
      ⟨none, some "dev@example.com", none, none, none⟩
      ⟨"Cargo.toml", "version = \"0.2.0\"\n", some "version = \"0.1.0\"\n",
        "demo", "0.1.0", "0.2.0", [], [⟨EntryKind.blob, "Cargo.toml", 0⟩],
        true, 1000, Except.ok "sig"⟩
      ⟨[], 42, none⟩ (Or.inl rfl)⟩

/-- Counterexample to claim C8 as stated: in the same missing-identity run
as the witness above, the run fails with the missing-identity error, yet two
objects (the staged manifest blob and the rebuilt tree) have already been
written to the object store — the abort does not happen "before any object
is written". -/
theorem commit_missing_identity_writes_objects :
    (commitVersionChangesWithFiles
        ⟨none, some "dev@example.com", none, none, none⟩
        ⟨"Cargo.toml", "version = \"0.2.0\"\n", some "version = \"0.1.0\"\n",
          "demo", "0.1.0", "0.2.0", [], [⟨EntryKind.blob, "Cargo.toml", 0⟩],
          true, 1000, Except.ok "sig"⟩
        ⟨[], 42, none⟩).1 = Except.error "Git config user.name is not set"
      ∧ (commitVersionChangesWithFiles
        ⟨none, some "dev@example.com", none, none, none⟩
        ⟨"Cargo.toml", "version = \"0.2.0\"\n", some "version = \"0.1.0\"\n",
          "demo", "0.1.0", "0.2.0", [], [⟨EntryKind.blob, "Cargo.toml", 0⟩],
          true, 1000, Except.ok "sig"⟩
        ⟨[], 42, none⟩).2.objects.length = 2
      ∧ (⟨[], 42, none⟩ : RepoState).objects.length = 0 := by
  refine ⟨?_, ?_, rfl⟩
  · rfl
  · rfl

/-- Claim C10: every commit object `create_commit` writes has a committer
identical to its author (same name, email and timestamp — the committer is a
clone of the author), and the signature read from config always carries a
zero UTC offset, so the offset field of both lines renders as +0000. -/
theorem create_commit_committer_equals_author
    (cfg : GitConfig) (nowSeconds : Int) (sshOutcome : Except String String)
    (treeOid parentOid : Nat) (oldV newV : String) (st : RepoState)
    (commitId : Nat) (st2 : RepoState)
    (h : createCommit cfg nowSeconds sshOutcome treeOid parentOid oldV newV st
      = Except.ok (commitId, st2)) :
    ∃ author extraHeaders,
      st2.objects = st.objects
        ++ [GitObject.commitObj treeOid parentOid author author
          ("chore(version): bump " ++ oldV ++ " -> " ++ newV) extraHeaders]
      ∧ author.time.offset = 0
      ∧ author.time.seconds = nowSeconds
      ∧ formatOffset author.time.offset = "+0000" := by
  cases hs : getSignatureFromConfig cfg nowSeconds with
  | error e => simp [createCommit, hs] at h
  | ok author =>
    cases hbe : buildExtraHeaders cfg sshOutcome author author
        ("chore(version): bump " ++ oldV ++ " -> " ++ newV) treeOid parentOid with
    | error e => simp [createCommit, hs, hbe] at h
    | ok extraHeaders =>
      simp only [createCommit, hs, hbe, writeObject] at h
      obtain ⟨hcid, hst2⟩ := by simpa using h
      obtain ⟨hoff, hsec⟩ := getSignatureFromConfig_offset cfg nowSeconds author hs
      refine ⟨author, extraHeaders, ?_, hoff, hsec, ?_⟩
      · rw [← hst2]
      · rw [hoff]
        decide

/-- Witness for C10 at a concrete run: identity configured, signing
disabled; the produced commit has identical author and committer with a
+0000 offset. -/
theorem create_commit_committer_equals_author_witness :
    createCommit ⟨some "Dev", some "dev@example.com", none, none, none⟩ 1000
        (Except.ok "sig") 7 3 "0.1.0" "0.2.0" ⟨[], 3, none⟩
      = Except.ok (0, ⟨[GitObject.commitObj 7 3
          ⟨"Dev", "dev@example.com", ⟨1000, 0⟩⟩ ⟨"Dev", "dev@example.com", ⟨1000, 0⟩⟩
          "chore(version): bump 0.1.0 -> 0.2.0" []], 3, none⟩)
    ∧ ∃ author extraHeaders,
      (⟨[GitObject.commitObj 7 3
          ⟨"Dev", "dev@example.com", ⟨1000, 0⟩⟩ ⟨"Dev", "dev@example.com", ⟨1000, 0⟩⟩
          "chore(version): bump 0.1.0 -> 0.2.0" []], 3, none⟩ : RepoState).objects
        = (⟨[], 3, none⟩ : RepoState).objects
          ++ [GitObject.commitObj 7 3 author author
            ("chore(version): bump " ++ "0.1.0" ++ " -> " ++ "0.2.0") extraHeaders]
      ∧ author.time.offset = 0
      ∧ author.time.seconds = 1000
      ∧ formatOffset author.time.offset = "+0000" :=
  ⟨rfl,
    create_commit_committer_equals_author
      ⟨some "Dev", some "dev@example.com", none, none, none⟩ 1000
      (Except.ok "sig") 7 3 "0.1.0" "0.2.0" ⟨[], 3, none⟩ 0
      ⟨[GitObject.commitObj 7 3
        ⟨"Dev", "dev@example.com", ⟨1000, 0⟩⟩ ⟨"Dev", "dev@example.com", ⟨1000, 0⟩⟩
        "chore(version): bump 0.1.0 -> 0.2.0" []], 3, none⟩ rfl⟩
